import Mathlib

/-!
Verification of `mockfactory/catalog.py`: the partitioned-file abstraction
(`BaseFile`) and the distributed column store (`BaseCatalog`).

Conventions of the shallow embedding:
* a column stored on disk or in memory is a `List α` of rows;
* per-process local data is a `List (List α)`, one entry per MPI rank, in rank
  order, so that a `gather` in rank order is `List.flatten`;
* Python `arr[i:j]` slicing with non-negative clipped bounds is `pySlice`;
* `np.cumsum` is `cumsum`, `np.searchsorted(side='left')` is `searchsortedLeft`;
* machine integers are `Nat` (sizes, ranks and row indices are non-negative and
  the code keeps every subtraction clipped via `max(., 0)`, which is exactly
  `Nat` truncated subtraction).
-/

namespace Mockfactory

/-- Python slice `l[i:j]` for `0 ≤ i, j`: indices `[i, min j l.length)`. -/
def pySlice (l : List α) (i j : Nat) : List α := (l.take j).drop i

/-- `np.cumsum`: element `i` is the sum of the first `i+1` entries. -/
def cumsum (cs : List Nat) : List Nat :=
  (List.range cs.length).map (fun i => (cs.take (i + 1)).sum)

/-- `np.searchsorted(a, v, side='left')` on a sorted list: the number of
elements strictly below `v`, i.e. the leftmost insertion point. -/
def searchsortedLeft (a : List Nat) (v : Nat) : Nat :=
  a.countP (fun x => x < v)

/-! ## `BaseFile._read_header` (catalog.py lines 113-136)

After broadcasting the header, every rank computes
`start = rank * csize // size`, `stop = (rank + 1) * csize // size`,
`size = stop - start`. -/

/-- `self.start` of `BaseFile._read_header` (line 134). -/
def headerStart (rank csize nproc : Nat) : Nat := rank * csize / nproc

/-- `self.stop` of `BaseFile._read_header` (line 135). -/
def headerStop (rank csize nproc : Nat) : Nat := (rank + 1) * csize / nproc

/-- `self.size` of `BaseFile._read_header` (line 136). -/
def headerSize (rank csize nproc : Nat) : Nat :=
  headerStop rank csize nproc - headerStart rank csize nproc

theorem headerStart_mono (csize nproc : Nat) :
    Monotone (fun rank => headerStart rank csize nproc) := by
  intro a b hab
  exact Nat.div_le_div_right (Nat.mul_le_mul_right _ hab)

theorem headerStart_le_headerStop (rank csize nproc : Nat) :
    headerStart rank csize nproc ≤ headerStop rank csize nproc :=
  headerStart_mono csize nproc (Nat.le_succ rank)

theorem headerStop_eq_headerStart_succ (rank csize nproc : Nat) :
    headerStop rank csize nproc = headerStart (rank + 1) csize nproc := rfl

theorem headerStop_le_csize (rank csize nproc : Nat) (h : rank < nproc) :
    headerStop rank csize nproc ≤ csize := by
  unfold headerStop
  calc (rank + 1) * csize / nproc ≤ nproc * csize / nproc :=
        Nat.div_le_div_right (Nat.mul_le_mul_right _ h)
    _ ≤ csize := by
        rcases Nat.eq_zero_or_pos nproc with h0 | h0
        · omega
        · rw [Nat.mul_div_cancel_left _ h0]

/-- C1: after any open-for-read over `P` processes, rank `r` is assigned
`[r*total//P, (r+1)*total//P)` where `total = sum(fileSizes)`; the blocks are
contiguous (`stop r = start (r+1)`), non-overlapping (`start r ≤ stop r` with
contiguity), start at `0`, and the local sizes `stop - start` summed over the
`P` ranks equal the global total, for every `P ≥ 1` and every file-size list. -/
theorem read_header_partition (P : Nat) (hP : 1 ≤ P) (fileSizes : List Nat) :
    (∑ r ∈ Finset.range P, headerSize r fileSizes.sum P) = fileSizes.sum
    ∧ (∀ r, headerStop r fileSizes.sum P = headerStart (r + 1) fileSizes.sum P)
    ∧ (∀ r, headerStart r fileSizes.sum P ≤ headerStop r fileSizes.sum P)
    ∧ headerStart 0 fileSizes.sum P = 0 := by
  refine ⟨?_, fun r => rfl, fun r => headerStart_le_headerStop .., ?_⟩
  · have h := Finset.sum_range_tsub
      (f := fun r => headerStart r fileSizes.sum P)
      (headerStart_mono fileSizes.sum P) P
    unfold headerSize headerStop
    unfold headerStart at h ⊢
    rw [h]
    rw [Nat.mul_div_cancel_left _ (show 0 < P by omega), Nat.zero_mul, Nat.zero_div,
      Nat.sub_zero]
  · unfold headerStart
    rw [Nat.zero_mul, Nat.zero_div]

/-- Witness for C1 at `P = 2`, file sizes `[10, 7, 5]` (the spec's scenario). -/
theorem read_header_partition_witness :
    (∑ r ∈ Finset.range 2, headerSize r ([10, 7, 5] : List Nat).sum 2) =
      ([10, 7, 5] : List Nat).sum
    ∧ headerStart 0 22 2 = 0 ∧ headerStop 0 22 2 = 11
    ∧ headerStart 1 22 2 = 11 ∧ headerStop 1 22 2 = 22 := by
  refine ⟨(read_header_partition 2 (by decide) [10, 7, 5]).1, ?_, ?_, ?_, ?_⟩ <;> decide

/-! ### Slice and prefix-sum helper lemmas -/

theorem pySlice_nil (i j : Nat) : pySlice ([] : List α) i j = [] := by
  simp [pySlice]

theorem pySlice_min_length (l : List α) (i j : Nat) :
    pySlice l i (min j l.length) = pySlice l i j := by
  unfold pySlice
  rcases Nat.le_total j l.length with h | h
  · rw [Nat.min_eq_left h]
  · rw [Nat.min_eq_right h, List.take_length, List.take_of_length_le h]

theorem pySlice_eq_nil_of_le {l : List α} {i : Nat} (h : l.length ≤ i) (j : Nat) :
    pySlice l i j = [] := by
  unfold pySlice
  apply List.drop_eq_nil_of_le
  have hlen : (l.take j).length ≤ l.length := by
    simp [List.length_take]
  omega

theorem pySlice_append (a b : List α) (i j : Nat) :
    pySlice (a ++ b) i j = pySlice a i j ++ pySlice b (i - a.length) (j - a.length) := by
  unfold pySlice
  rw [List.take_append_eq_append_take, List.drop_append_eq_append_drop]
  congr 1
  rcases Nat.le_total j a.length with h | h
  · rw [Nat.sub_eq_zero_of_le h]
    simp
  · rw [List.length_take, Nat.min_eq_right h]

theorem pySlice_glue (l : List α) {a b c : Nat} (hab : a ≤ b) (hbc : b ≤ c) :
    pySlice l a b ++ pySlice l b c = pySlice l a c := by
  unfold pySlice
  have hc : l.take c = l.take b ++ (l.drop b).take (c - b) := by
    rw [← List.take_add, Nat.add_sub_cancel' hbc]
  have hdt : List.drop b (l.take c) = (l.drop b).take (c - b) := List.drop_take c b l
  rw [hdt]
  conv_rhs => rw [hc]
  rw [List.drop_append_eq_append_drop]
  congr 1
  rcases Nat.le_total a l.length with h | h
  · have h0 : a - (l.take b).length = 0 := by
      rw [List.length_take]
      omega
    rw [h0, List.drop_zero]
  · have hnil : l.drop b = [] := List.drop_eq_nil_of_le (le_trans h hab)
    rw [hnil]
    simp

theorem length_cumsum (cs : List Nat) : (cumsum cs).length = cs.length := by
  simp [cumsum]

theorem cumsum_getElem (cs : List Nat) (i : Nat) (h : i < (cumsum cs).length) :
    (cumsum cs)[i] = (cs.take (i + 1)).sum := by
  simp [cumsum]

theorem cumsum_getD (cs : List Nat) (i : Nat) (h : i < cs.length) :
    (cumsum cs).getD i 0 = (cs.take (i + 1)).sum := by
  have h' : i < (cumsum cs).length := by
    rw [length_cumsum]
    exact h
  rw [List.getD_eq_getElem _ _ h', cumsum_getElem]

theorem sum_take_mono (cs : List Nat) {i j : Nat} (h : i ≤ j) :
    (cs.take i).sum ≤ (cs.take j).sum := by
  have h1 : cs.take i = (cs.take j).take i := by
    rw [List.take_take, Nat.min_eq_left h]
  rw [h1]
  have h2 := List.sum_take_add_sum_drop (cs.take j) i
  omega

theorem cumsum_sorted (cs : List Nat) : (cumsum cs).Sorted (· ≤ ·) := by
  apply List.pairwise_iff_getElem.mpr
  intro i j hi hj hij
  rw [cumsum_getElem _ _ hi, cumsum_getElem _ _ hj]
  exact sum_take_mono cs (by omega)

theorem sum_take_succ (cs : List Nat) (i : Nat) :
    (cs.take (i + 1)).sum = (cs.take i).sum + cs.getD i 0 := by
  rw [List.take_succ, List.sum_append]
  congr 1
  rw [List.getD_eq_getElem?_getD]
  cases cs[i]? <;> simp

theorem map_length_getD (parts : List (List α)) (i : Nat) :
    (parts.map List.length).getD i 0 = (parts.getD i []).length := by
  rw [List.getD_eq_getElem?_getD, List.getD_eq_getElem?_getD, List.getElem?_map]
  cases parts[i]? <;> rfl

/-- Index `i` of a sorted list is strictly below `v` when `i` is below the
left insertion point of `v`. -/
theorem getD_lt_of_lt_countP {l : List Nat} (hs : l.Sorted (· ≤ ·)) {v i : Nat}
    (h : i < l.countP (fun x => x < v)) : l.getD i 0 < v := by
  induction l generalizing i with
  | nil => simp [List.countP_nil] at h
  | cons a t ih =>
    rw [List.sorted_cons] at hs
    obtain ⟨ha, ht⟩ := hs
    cases i with
    | zero =>
      rw [List.getD_cons_zero]
      by_contra hav
      push_neg at hav
      have h0 : (a :: t).countP (fun x => x < v) = 0 := by
        apply List.countP_eq_zero.mpr
        intro x hx
        simp only [decide_eq_true_eq]
        rcases List.mem_cons.mp hx with rfl | hxt
        · omega
        · have := ha x hxt
          omega
      omega
    | succ i =>
      rw [List.getD_cons_succ]
      have hle : (a :: t).countP (fun x => x < v) ≤ t.countP (fun x => x < v) + 1 := by
        rw [List.countP_cons]
        split <;> omega
      exact ih ht (by omega)

/-- Index `i` of a sorted list is at least `v` when `i` is at or past the
left insertion point of `v` (and in range). -/
theorem le_getD_of_countP_le {l : List Nat} (hs : l.Sorted (· ≤ ·)) {v i : Nat}
    (h1 : l.countP (fun x => x < v) ≤ i) (h2 : i < l.length) : v ≤ l.getD i 0 := by
  induction l generalizing i with
  | nil => simp at h2
  | cons a t ih =>
    rw [List.sorted_cons] at hs
    obtain ⟨ha, ht⟩ := hs
    cases i with
    | zero =>
      rw [List.getD_cons_zero]
      have h0 : (a :: t).countP (fun x => x < v) = 0 := Nat.le_zero.mp h1
      have := List.countP_eq_zero.mp h0 a (List.mem_cons_self a t)
      simpa using this
    | succ i =>
      rw [List.getD_cons_succ]
      have hit : i < t.length := by simpa using h2
      by_cases hav : a < v
      · apply ih ht _ hit
        rw [List.countP_cons, if_pos (by simpa using hav)] at h1
        omega
      · rw [List.getD_eq_getElem _ _ hit]
        exact le_trans (by omega) (ha _ (List.getElem_mem hit))

/-! ## `BaseFile.read` (catalog.py lines 138-150)

`files` holds, for one column, the rows stored in each physical file (in file
order), so `csizes = files.map List.length` are the per-file row counts from
the header and the codec adapter's slice-read of file `i` is `pySlice` of
`files.getD i []`. -/

/-- `cumstart` of the loop body (line 147):
`0 if ifile == 0 else cumsizes[ifile - 1]`. -/
def cumStart (files : List (List α)) (ifile : Nat) : Nat :=
  if ifile = 0 then 0 else (cumsum (files.map List.length)).getD (ifile - 1) 0

/-- One iteration of the loop of `BaseFile.read` (lines 146-149):
`rows = slice(max(start - cumstart, 0), min(stop - cumstart, csizes[ifile]))`
then the codec adapter's slice-read.  `Nat` truncated subtraction is the
`max(., 0)` clip; inside the loop `stop - cumstart` is never negative
(`cumsizes[ifile - 1] < stop` there), so it matches the Python value. -/
def readPiece (files : List (List α)) (start stop ifile : Nat) : List α :=
  pySlice (files.getD ifile []) (start - cumStart files ifile)
    (min (stop - cumStart files ifile) ((files.map List.length).getD ifile 0))

/-- `BaseFile.read` for one column (lines 138-150): per-file slices for
`ifile in range(ifile_start, ifile_stop + 1)` concatenated in file order,
where `ifile_start`/`ifile_stop` are `np.searchsorted(cumsizes, ., 'left')`
of `start` and `stop` (lines 142-144). -/
def readCol (files : List (List α)) (start stop : Nat) : List α :=
  let cumsizes := cumsum (files.map List.length)
  let ifileStart := searchsortedLeft cumsizes start
  let ifileStop := searchsortedLeft cumsizes stop
  ((List.range (ifileStop + 1 - ifileStart)).map
    (fun k => readPiece files start stop (ifileStart + k))).flatten

/-- Reference function: slice a virtual concatenation part by part. -/
def sliceParts : List (List α) → Nat → Nat → List α
  | [], _, _ => []
  | f :: fs, start, stop =>
      pySlice f start (min stop f.length)
        ++ sliceParts fs (start - f.length) (stop - f.length)

theorem cumStart_eq (files : List (List α)) {i : Nat} (hi : i ≤ files.length) :
    cumStart files i = ((files.map List.length).take i).sum := by
  unfold cumStart
  cases i with
  | zero => simp
  | succ i =>
    rw [if_neg (Nat.succ_ne_zero i), Nat.add_sub_cancel]
    exact cumsum_getD _ i (by simp; omega)

theorem cumStart_succ (f : List α) (fs : List (List α)) {i : Nat} (hi : i ≤ fs.length) :
    cumStart (f :: fs) (i + 1) = f.length + cumStart fs i := by
  rw [cumStart_eq _ (by simp; omega), cumStart_eq _ hi, List.map_cons,
    List.take_succ_cons, List.sum_cons]

theorem readPiece_zero (f : List α) (fs : List (List α)) (start stop : Nat) :
    readPiece (f :: fs) start stop 0 = pySlice f start (min stop f.length) := by
  simp [readPiece, cumStart]

theorem readPiece_succ (f : List α) (fs : List (List α)) (s t : Nat) {i : Nat}
    (hi : i ≤ fs.length) :
    readPiece (f :: fs) s t (i + 1) = readPiece fs (s - f.length) (t - f.length) i := by
  unfold readPiece
  rw [cumStart_succ f fs hi]
  simp only [List.getD_cons_succ, List.map_cons]
  rw [← Nat.sub_sub, ← Nat.sub_sub]

theorem flatten_range_readPiece (parts : List (List α)) (s t : Nat) :
    ((List.range parts.length).map (readPiece parts s t)).flatten = sliceParts parts s t := by
  induction parts generalizing s t with
  | nil => simp [sliceParts]
  | cons f fs ih =>
    rw [List.length_cons, List.range_succ_eq_map, List.map_cons, List.map_map,
      List.flatten_cons]
    have hmap : (List.range fs.length).map (readPiece (f :: fs) s t ∘ Nat.succ)
        = (List.range fs.length).map (readPiece fs (s - f.length) (t - f.length)) := by
      apply List.map_congr_left
      intro i hi
      exact readPiece_succ f fs s t (by have := List.mem_range.mp hi; omega)
    rw [hmap, ih, readPiece_zero]
    rfl

theorem sliceParts_eq_pySlice_flatten (parts : List (List α)) (s t : Nat) :
    sliceParts parts s t = pySlice parts.flatten s t := by
  induction parts generalizing s t with
  | nil => simp [sliceParts, pySlice]
  | cons f fs ih =>
    simp only [sliceParts, List.flatten_cons]
    rw [pySlice_append, ih, pySlice_min_length]

theorem readPiece_of_length_le (parts : List (List α)) (s t : Nat) {i : Nat}
    (h : parts.length ≤ i) : readPiece parts s t i = [] := by
  unfold readPiece
  rw [List.getD_eq_getElem?_getD, List.getElem?_eq_none (by simpa using h)]
  exact pySlice_nil _ _

theorem readPiece_of_lt_start (parts : List (List α)) {s : Nat} (t : Nat) {i : Nat}
    (h : i < searchsortedLeft (cumsum (parts.map List.length)) s) :
    readPiece parts s t i = [] := by
  have hlen : i < parts.length := by
    have h1 : searchsortedLeft (cumsum (parts.map List.length)) s
        ≤ (cumsum (parts.map List.length)).length := List.countP_le_length _
    rw [length_cumsum, List.length_map] at h1
    omega
  have hgd : (cumsum (parts.map List.length)).getD i 0 < s :=
    getD_lt_of_lt_countP (cumsum_sorted _) h
  rw [cumsum_getD _ _ (by simpa using hlen), sum_take_succ, map_length_getD] at hgd
  unfold readPiece
  apply pySlice_eq_nil_of_le
  rw [cumStart_eq _ (by omega)]
  omega

theorem readPiece_of_stop_le (parts : List (List α)) (s : Nat) {t i : Nat}
    (h : searchsortedLeft (cumsum (parts.map List.length)) t < i) :
    readPiece parts s t i = [] := by
  have h' : (cumsum (parts.map List.length)).countP (fun x => x < t) < i := h
  rcases Nat.lt_or_ge i (parts.length + 1) with hlt | hge
  · have hi1 : i - 1 < parts.length := by omega
    have hN2 : t ≤ (cumsum (parts.map List.length)).getD (i - 1) 0 := by
      apply le_getD_of_countP_le (cumsum_sorted _) (by omega)
      rw [length_cumsum, List.length_map]
      exact hi1
    unfold readPiece
    have hcs : cumStart parts i = (cumsum (parts.map List.length)).getD (i - 1) 0 := by
      unfold cumStart
      rw [if_neg (by omega)]
    rw [hcs]
    have ht0 : t - (cumsum (parts.map List.length)).getD (i - 1) 0 = 0 := by omega
    rw [ht0]
    simp [pySlice]
  · exact readPiece_of_length_le parts s t (by omega)

/-- Restricting a flattened `map` over `range n` to the index window `[a, b]`
loses nothing when every index outside the window maps to `[]`. -/
theorem flatten_map_range_of_outside_nil (g : Nat → List α) (n a b : Nat)
    (hab : a ≤ b) (hbn : b < n)
    (h1 : ∀ i, i < a → g i = []) (h2 : ∀ i, b < i → g i = []) :
    ((List.range (b + 1 - a)).map (fun k => g (a + k))).flatten
      = ((List.range n).map g).flatten := by
  have hn : n = a + ((b + 1 - a) + (n - (b + 1))) := by omega
  have hsplit : List.range n
      = List.range a ++ ((List.range (b + 1 - a)).map (fun x => a + x)
          ++ (List.range (n - (b + 1))).map (fun x => a + ((b + 1 - a) + x))) := by
    conv_lhs => rw [hn]
    rw [List.range_add, List.range_add, List.map_append, List.map_map]
    simp only [Function.comp_def]
  rw [hsplit, List.map_append, List.map_append, List.flatten_append, List.flatten_append,
    List.map_map, List.map_map]
  have e1 : ((List.range a).map g).flatten = [] := by
    apply List.flatten_eq_nil_iff.mpr
    intro x hx
    obtain ⟨i, hi, rfl⟩ := List.mem_map.mp hx
    exact h1 i (List.mem_range.mp hi)
  have e3 : ((List.range (n - (b + 1))).map (g ∘ fun x => a + ((b + 1 - a) + x))).flatten
      = [] := by
    apply List.flatten_eq_nil_iff.mpr
    intro x hx
    obtain ⟨i, _hi, rfl⟩ := List.mem_map.mp hx
    show g (a + ((b + 1 - a) + i)) = []
    exact h2 _ (by omega)
  rw [e1, e3]
  simp only [Function.comp_def, List.append_nil, List.nil_append]

theorem searchsorted_stop_lt_length (files : List (List α)) {t : Nat}
    (hne : files ≠ []) (ht : t ≤ (files.map List.length).sum) :
    searchsortedLeft (cumsum (files.map List.length)) t < files.length := by
  by_contra hc
  push_neg at hc
  have hble : searchsortedLeft (cumsum (files.map List.length)) t
      ≤ (cumsum (files.map List.length)).length := List.countP_le_length _
  have hczlen : (cumsum (files.map List.length)).length = files.length := by
    rw [length_cumsum, List.length_map]
  have hb_eq : (cumsum (files.map List.length)).countP (fun x => x < t)
      = (cumsum (files.map List.length)).length := by
    have : searchsortedLeft (cumsum (files.map List.length)) t
        = (cumsum (files.map List.length)).countP (fun x => x < t) := rfl
    omega
  have hall := List.countP_eq_length.mp hb_eq
  have hlen1 : 0 < files.length := List.length_pos.mpr hne
  have hidx : files.length - 1 < (cumsum (files.map List.length)).length := by omega
  have hval : (cumsum (files.map List.length))[files.length - 1]
      = (files.map List.length).sum := by
    rw [cumsum_getElem _ _ hidx]
    have h1 : files.length - 1 + 1 = (files.map List.length).length := by
      rw [List.length_map]
      omega
    rw [h1, List.take_length]
  have := hall _ (hval ▸ List.getElem_mem hidx)
  simp only [decide_eq_true_eq] at this
  omega

theorem readCol_eq_pySlice_flatten (files : List (List α)) (s t : Nat)
    (hne : files ≠ []) (hst : s ≤ t) (ht : t ≤ (files.map List.length).sum) :
    readCol files s t = pySlice files.flatten s t := by
  have hab : searchsortedLeft (cumsum (files.map List.length)) s
      ≤ searchsortedLeft (cumsum (files.map List.length)) t := by
    apply List.countP_mono_left
    intro x _ hx
    simp only [decide_eq_true_eq] at hx ⊢
    omega
  have hbn := searchsorted_stop_lt_length files hne ht
  have hfull : readCol files s t
      = ((List.range files.length).map (readPiece files s t)).flatten := by
    show ((List.range (searchsortedLeft (cumsum (files.map List.length)) t + 1
        - searchsortedLeft (cumsum (files.map List.length)) s)).map
        (fun k => readPiece files s t
          (searchsortedLeft (cumsum (files.map List.length)) s + k))).flatten = _
    exact flatten_map_range_of_outside_nil (readPiece files s t) files.length _ _ hab hbn
      (fun i hi => readPiece_of_lt_start files t hi)
      (fun i hi => readPiece_of_stop_le files s hi)
  rw [hfull, flatten_range_readPiece, sliceParts_eq_pySlice_flatten]

/-- C2: for a process assigned `[start, stop)` by `_read_header`, `read`
returns exactly rows `[start, stop)` of the virtual concatenation of all the
files in file order, for every column content, every file list and every
`rank < P`.  The intersecting files are located by the lower-bound
(`side='left'`) search over the prefix sums of the per-file row counts, each
intersection is translated to a file-local row range and the per-file slices
are concatenated in file order — all embedded verbatim in `readCol`. -/
theorem read_returns_assigned_interval (files : List (List α)) (P rank : Nat)
    (hne : files ≠ []) (hrank : rank < P) :
    readCol files (headerStart rank (files.map List.length).sum P)
        (headerStop rank (files.map List.length).sum P)
      = pySlice files.flatten (headerStart rank (files.map List.length).sum P)
          (headerStop rank (files.map List.length).sum P) :=
  readCol_eq_pySlice_flatten files _ _ hne
    (headerStart_le_headerStop rank _ P)
    (headerStop_le_csize rank _ P hrank)

/-- Witness for C2: the spec's scenario — 3 files of sizes `[10, 7, 5]` on 2
processes; process 0 gets `[0, 11)` and its read spans all of file 0 plus the
first row of file 1; process 1 gets `[11, 22)`. -/
theorem read_returns_assigned_interval_witness :
    readCol [[0, 1, 2, 3, 4, 5, 6, 7, 8, 9], [10, 11, 12, 13, 14, 15, 16],
        [17, 18, 19, 20, 21]] (headerStart 0 22 2) (headerStop 0 22 2)
      = pySlice ([[0, 1, 2, 3, 4, 5, 6, 7, 8, 9], [10, 11, 12, 13, 14, 15, 16],
          [17, 18, 19, 20, 21]] : List (List Nat)).flatten
          (headerStart 0 22 2) (headerStop 0 22 2)
    ∧ readCol [[0, 1, 2, 3, 4, 5, 6, 7, 8, 9], [10, 11, 12, 13, 14, 15, 16],
        [17, 18, 19, 20, 21]] 0 11 = [0, 1, 2, 3, 4, 5, 6, 7, 8, 9, 10]
    ∧ readCol [[0, 1, 2, 3, 4, 5, 6, 7, 8, 9], [10, 11, 12, 13, 14, 15, 16],
        [17, 18, 19, 20, 21]] 11 22 = [11, 12, 13, 14, 15, 16, 17, 18, 19, 20, 21] :=
  ⟨read_returns_assigned_interval _ 2 0 (by decide) (by decide), by decide, by decide⟩

/-! ## `BaseFile.write` (catalog.py lines 152-208)

`datas` holds, for one column, each rank's local rows in rank order, so
`sizes = mpicomm.allgather(size)` is `datas.map List.length` and
`csize = cumsizes[-1]` is their sum.  For each target file the code computes
`start, stop = ifile * csize // nfiles, (ifile + 1) * csize // nfiles`
(line 189), locates the overlapping ranks with the same lower-bound
`np.searchsorted(cumsizes, ., 'left')` (lines 190-191), and every rank
passes its `rows` slice (the empty `slice(0, 0)` when it does not overlap)
to `_write_file_slice`, which gathers the slices in rank order. -/

/-- The `rows` slice bounds of `BaseFile.write` for one rank and one target
file (lines 192-196).  Inside the guard, `stop - cumstart` is never negative
(`cumsizes[rank - 1] < stop` there), so `Nat` subtraction matches Python and
truncated `start - cumstart` is the `max(start - cumstart, 0)` clip. -/
def writeRows (sizes : List Nat) (rank start stop : Nat) : Nat × Nat :=
  if searchsortedLeft (cumsum sizes) start ≤ rank
      ∧ rank ≤ searchsortedLeft (cumsum sizes) stop then
    (start - (if rank = 0 then 0 else (cumsum sizes).getD (rank - 1) 0),
     min (stop - (if rank = 0 then 0 else (cumsum sizes).getD (rank - 1) 0))
       (sizes.getD rank 0))
  else (0, 0)

/-- The rows received by target file `ifile` for one column: each rank's
`data[name][rows]` contribution gathered in rank order. -/
def fileContent (datas : List (List α)) (ifile nfiles : Nat) : List α :=
  ((List.range datas.length).map (fun rank =>
    pySlice (datas.getD rank [])
      (writeRows (datas.map List.length) rank
        (ifile * (datas.map List.length).sum / nfiles)
        ((ifile + 1) * (datas.map List.length).sum / nfiles)).1
      (writeRows (datas.map List.length) rank
        (ifile * (datas.map List.length).sum / nfiles)
        ((ifile + 1) * (datas.map List.length).sum / nfiles)).2)).flatten

/-- One rank's contribution to one target file in `BaseFile.write` with
already-scattered input (`mpiroot=None`), lines 199-207.  In the `isdict`
branch the computed `rows` slice is applied to each column; in the array
branch (line 204) the code evaluates `data[sl]`, but no name `sl` is bound
anywhere in `write` (the slice variable is called `rows`), so Python raises
`NameError` before anything is written. -/
def writeRankFileData (isdict : Bool) (localData : List α) (sizes : List Nat)
    (rank start stop : Nat) : Except String (List α) :=
  if isdict then
    Except.ok (pySlice localData (writeRows sizes rank start stop).1
      (writeRows sizes rank start stop).2)
  else Except.error "NameError: name 'sl' is not defined"

theorem writeRows_piece_eq_readPiece (datas : List (List α)) (s t rank : Nat) :
    pySlice (datas.getD rank []) (writeRows (datas.map List.length) rank s t).1
        (writeRows (datas.map List.length) rank s t).2
      = readPiece datas s t rank := by
  by_cases hg : searchsortedLeft (cumsum (datas.map List.length)) s ≤ rank
      ∧ rank ≤ searchsortedLeft (cumsum (datas.map List.length)) t
  · rw [writeRows, if_pos hg]
    rfl
  · rw [writeRows, if_neg hg]
    push_neg at hg
    rcases Nat.lt_or_ge rank (searchsortedLeft (cumsum (datas.map List.length)) s)
      with hlt | hge
    · rw [readPiece_of_lt_start datas t hlt]
      simp [pySlice]
    · have hstop : searchsortedLeft (cumsum (datas.map List.length)) t < rank := hg hge
      rw [readPiece_of_stop_le datas s hstop]
      simp [pySlice]

/-- The dict-input path of `write` distributes rows exactly: target file
`ifile` receives precisely global rows
`[ifile*csize//nfiles, (ifile+1)*csize//nfiles)` of the rank-ordered
concatenation of the local arrays. -/
theorem fileContent_eq_pySlice (datas : List (List α)) (ifile nfiles : Nat) :
    fileContent datas ifile nfiles
      = pySlice datas.flatten (ifile * (datas.map List.length).sum / nfiles)
          ((ifile + 1) * (datas.map List.length).sum / nfiles) := by
  unfold fileContent
  rw [List.map_congr_left (fun rank _ => writeRows_piece_eq_readPiece datas
    (ifile * (datas.map List.length).sum / nfiles)
    ((ifile + 1) * (datas.map List.length).sum / nfiles) rank)]
  rw [flatten_range_readPiece, sliceParts_eq_pySlice_flatten]

/-- C3 fails on the code: writing a plain (non-dict) already-scattered array
raises `NameError` (line 204 reads the unbound name `sl`), even in the
smallest configuration — 1 process, 1 target file, a 2-row array — where the
claim says the write succeeds with file 0 receiving rows `[0, 2)`.  The dict
path (second conjunct) produces exactly the content the claim describes. -/
theorem write_array_input_raises_nameerror :
    writeRankFileData false [0, 1] [2] 0 (0 * 2 / 1) ((0 + 1) * 2 / 1)
      = Except.error "NameError: name 'sl' is not defined"
    ∧ fileContent [[0, 1]] 0 1 = [0, 1] := by
  constructor
  · rfl
  · decide

/-! ## Collective substrate (`mpi` module, not under `src/`) -/

/-- Modelled from the spec: `mpi.scatter_array` of the collective substrate
(§6 `scatterArray`), which `catalog.py` only calls; the spec fixes its
behaviour as scattering the root's array "evenly across processes" with the
integer-division boundaries `start = rank*S/P`, `stop = (rank+1)*S/P` (§8),
i.e. rank `r` of `P` receives rows `[r*n//P, (r+1)*n//P)`.  The rank-order
gather `mpi.gather_array` is `List.flatten` of the per-rank lists. -/
def scatter_array (l : List α) (P : Nat) : List (List α) :=
  (List.range P).map (fun rank =>
    pySlice l (headerStart rank l.length P) (headerStop rank l.length P))

theorem flatten_map_range_pySlice (l : List α) (f : Nat → Nat) (m : Nat)
    (hmono : ∀ i, f i ≤ f (i + 1)) (h0 : f 0 = 0) :
    ((List.range m).map (fun r => pySlice l (f r) (f (r + 1)))).flatten
      = pySlice l 0 (f m) := by
  induction m with
  | zero => simp [pySlice, h0]
  | succ m ih =>
    rw [List.range_succ, List.map_append, List.flatten_append, ih]
    simp only [List.map_cons, List.map_nil, List.flatten_cons, List.flatten_nil,
      List.append_nil]
    exact pySlice_glue l (Nat.zero_le _) (hmono m)

/-- A gather after an even scatter restores the array. -/
theorem flatten_scatter_array (l : List α) (P : Nat) (hP : 1 ≤ P) :
    (scatter_array l P).flatten = l := by
  unfold scatter_array
  have h := flatten_map_range_pySlice l (fun r => headerStart r l.length P) P
    (fun i => headerStart_le_headerStop i l.length P) (by simp [headerStart])
  rw [show (fun rank =>
      pySlice l (headerStart rank l.length P) (headerStop rank l.length P))
      = fun r => pySlice l (headerStart r l.length P) (headerStart (r + 1) l.length P)
    from rfl, h]
  show pySlice l 0 (headerStart P l.length P) = l
  unfold headerStart
  rw [Nat.mul_div_cancel_left _ (show 0 < P by omega)]
  simp [pySlice]

/-! ## `BaseCatalog.cslice` (catalog.py lines 653-664) -/

/-- `BaseCatalog.cslice` for one column: `sl = slice(*args)` is computed
(line 659) but never applied — the loop gathers the full column to root
(`cget`, line 662) and re-scatters it unchanged (line 663).  The slice
arguments are kept to mirror the signature. -/
def csliceColumn (locals : List (List α)) (start stop : Nat) : List (List α) :=
  scatter_array locals.flatten locals.length

/-- C4 fails on the code: `cslice` never applies the requested slice, so for
a single-process catalog with column `[0, 1, 2]`, gathering `cslice(0, 2)`
returns all three rows instead of the first two required by the claim (and
by the method's own docstring, which promises a catalog of global size
`stop - start`). -/
theorem cslice_ignores_slice_arguments :
    (csliceColumn [[0, 1, 2]] 0 2).flatten = [0, 1, 2]
    ∧ pySlice ([0, 1, 2] : List Nat) 0 2 = [0, 1]
    ∧ (csliceColumn [[0, 1, 2]] 0 2).flatten ≠ pySlice ([0, 1, 2] : List Nat) 0 2 := by
  refine ⟨by decide, by decide, by decide⟩

/-! ## `BaseCatalog.concatenate` (catalog.py lines 820-866) -/

/-- `concatenate` with `keep_order=True` for one column (lines 859-863): the
column is gathered to root from each input in argument order (`cget`),
concatenated there, and re-scattered over the shared communicator. -/
def concatColumnKeepOrder (locsA locsB : List (List α)) : List (List α) :=
  scatter_array (locsA.flatten ++ locsB.flatten) locsA.length

/-- `concatenate` with `keep_order=False` for one column (line 865): purely
local, each rank appends its own local slices in argument order. -/
def concatColumnLocal (locsA locsB : List (List α)) : List (List α) :=
  List.zipWith (· ++ ·) locsA locsB

/-- C5: with `keepOrder=True`, gathering any column of
`concatenate([A, B])` yields the gathered-A rows followed by the gathered-B
rows for any distribution of rows over the `P` ranks; with
`keepOrder=False` the result is local — each rank's local column is its own
A-slice followed by its own B-slice, so local sizes add. -/
theorem concatenate_order_spec (locsA locsB : List (List α)) (P : Nat)
    (hP : 1 ≤ P) (hA : locsA.length = P) (hB : locsB.length = P) :
    (concatColumnKeepOrder locsA locsB).flatten = locsA.flatten ++ locsB.flatten
    ∧ (∀ r, r < P → (concatColumnLocal locsA locsB).getD r []
        = locsA.getD r [] ++ locsB.getD r [])
    ∧ (∀ r, r < P → ((concatColumnLocal locsA locsB).getD r []).length
        = (locsA.getD r []).length + (locsB.getD r []).length) := by
  have hloc : ∀ r, r < P → (concatColumnLocal locsA locsB).getD r []
      = locsA.getD r [] ++ locsB.getD r [] := by
    intro r hr
    have hrA : r < locsA.length := by omega
    have hrB : r < locsB.length := by omega
    have hz : r < (List.zipWith (· ++ ·) locsA locsB).length := by
      rw [List.length_zipWith]
      omega
    rw [concatColumnLocal, List.getD_eq_getElem _ _ hz, List.getD_eq_getElem _ _ hrA,
      List.getD_eq_getElem _ _ hrB, List.getElem_zipWith]
  refine ⟨?_, hloc, ?_⟩
  · unfold concatColumnKeepOrder
    exact flatten_scatter_array _ _ (by omega)
  · intro r hr
    rw [hloc r hr, List.length_append]

/-- Witness for C5 at `P = 2`, A with locals `[0,1,2] | [3,4]`, B with
locals `[10] | [11,12]`. -/
theorem concatenate_order_spec_witness :
    (concatColumnKeepOrder [[0, 1, 2], [3, 4]] [[10], [11, 12]]).flatten
      = ([[0, 1, 2], [3, 4]] : List (List Nat)).flatten
          ++ ([[10], [11, 12]] : List (List Nat)).flatten
    ∧ (concatColumnLocal [[0, 1, 2], [3, 4]] [[10], [11, 12]]).getD 0 []
        = [0, 1, 2, 10]
    ∧ (concatColumnLocal [[0, 1, 2], [3, 4]] [[10], [11, 12]]).getD 1 []
        = [3, 4, 11, 12] :=
  ⟨(concatenate_order_spec [[0, 1, 2], [3, 4]] [[10], [11, 12]] 2 (by decide)
      (by decide) (by decide)).1, by decide, by decide⟩

/-! ## `BaseCatalog.save` / `BaseCatalog.load` (catalog.py lines 999-1038) -/

/-- The per-rank state of a catalog: column names plus, for each column, the
per-rank local arrays in rank order. -/
structure CatalogState (α : Type) where
  columns : List String
  locals : String → List (List α)

/-- `BaseCatalog.save` (lines 1030-1038): the checkpoint holds, for every
column, the values gathered to root in rank order
(`state['data'][name] = self.cget(name, mpiroot=self.mpiroot)`). -/
def saveState (c : CatalogState α) : List String × (String → List α) :=
  (c.columns, fun name => (c.locals name).flatten)

/-- `BaseCatalog.load` with `M` processes (lines 1014-1028): root loads the
checkpoint, broadcasts the column names, and scatters each column's full
array (`mpi.scatter_array`). -/
def loadState (st : List String × (String → List α)) (M : Nat) : CatalogState α :=
  ⟨st.1, fun name => scatter_array (st.2 name) M⟩

/-- §4.2 store equality (`BaseCatalog.__eq__`, lines 873-890): identical
column sets and element-wise equal globally-gathered values per column. -/
def storeEq (c d : CatalogState α) : Prop :=
  c.columns ⊆ d.columns ∧ d.columns ⊆ c.columns
    ∧ ∀ name ∈ c.columns, (c.locals name).flatten = (d.locals name).flatten

/-- C6: `save` then `load` — with any process count `M ≥ 1`, equal to or
different from the saving process count — yields a store §4.2-equal to the
original. -/
theorem save_load_roundtrip (c : CatalogState α) (M : Nat) (hM : 1 ≤ M) :
    storeEq (loadState (saveState c) M) c := by
  refine ⟨fun x hx => hx, fun x hx => hx, ?_⟩
  intro name _
  exact flatten_scatter_array _ _ hM

/-- Witness for C6: a catalog saved from 2 ranks and re-loaded on 3 ranks. -/
theorem save_load_roundtrip_witness :
    storeEq (loadState (saveState
        (⟨["x"], fun n => if n = "x" then [[1, 2], [3]] else []⟩ : CatalogState Nat)) 3)
      ⟨["x"], fun n => if n = "x" then [[1, 2], [3]] else []⟩
    ∧ (loadState (saveState
        (⟨["x"], fun n => if n = "x" then [[1, 2], [3]] else []⟩ : CatalogState Nat)) 3).locals "x"
        = [[1], [2], [3]] :=
  ⟨save_load_roundtrip _ 3 (by decide), by decide⟩

/-! ## Metadata merges (catalog.py line 125 and lines 844-845) -/

/-- Python dict merge at the lookup level: in `{**a, **b}` and in
`a.update(b)` the keys of `b` win on conflict. -/
def pyUnion (a b : String → Option β) : String → Option β :=
  fun k =>
    match b k with
    | some v => some v
    | none => a k

/-- The metadata accumulation of `_read_header` (line 125): per file, in
file order, `self.attrs = {**di.get('attrs', {}), **self.attrs}` — the
already-accumulated dict wins over the current file, starting from the empty
construction-time `attrs` of the claim's setting. -/
def headerAttrs (fileAttrs : List (String → Option β)) : String → Option β :=
  fileAttrs.foldl (fun acc di => pyUnion di acc) (fun _ => none)

/-- The metadata merge of `concatenate` (lines 844-845): `attrs = {}` then
`attrs.update(other.attrs)` over the inputs in argument order — the current
input wins over the accumulated dict. -/
def concatAttrs (storeAttrs : List (String → Option β)) : String → Option β :=
  storeAttrs.foldl (fun acc di => pyUnion acc di) (fun _ => none)

theorem headerAttrs_foldl (fs : List (String → Option β)) (acc : String → Option β)
    (k : String) :
    (fs.foldl (fun acc di => pyUnion di acc) acc) k
      = (acc k).or (fs.findSome? (fun f => f k)) := by
  induction fs generalizing acc with
  | nil => simp
  | cons f fs ih =>
    rw [List.foldl_cons, ih, List.findSome?_cons]
    cases hacc : acc k with
    | some v => simp [pyUnion, hacc]
    | none =>
      cases hf : f k with
      | some v => simp [pyUnion, hacc, hf]
      | none => simp [pyUnion, hacc, hf]

theorem concatAttrs_foldl (fs : List (String → Option β)) (acc : String → Option β)
    (k : String) :
    (fs.foldl (fun acc di => pyUnion acc di) acc) k
      = (fs.reverse.findSome? (fun f => f k)).or (acc k) := by
  induction fs generalizing acc with
  | nil => simp
  | cons f fs ih =>
    rw [List.foldl_cons, ih, List.reverse_cons, List.findSome?_append]
    cases hr : fs.reverse.findSome? (fun f => f k) with
    | some v => simp
    | none =>
      simp only [Option.none_or]
      cases hf : f k <;> simp [pyUnion, List.findSome?, hf]

/-- C8: the two metadata merges have opposite precedence and both hold for
every list of files / input stores and every key — the header merge of
open-for-read is first-wins (the merged value at `k` is the EARLIEST file's
value at `k`, i.e. `findSome?` in file order), while `concatenate` is
last-wins (the merged value at `k` is the LATEST input's value, i.e.
`findSome?` in reversed argument order). -/
theorem metadata_merge_precedence (β : Type) :
    (∀ (fileAttrs : List (String → Option β)) (k : String),
      headerAttrs fileAttrs k = fileAttrs.findSome? (fun f => f k))
    ∧ (∀ (storeAttrs : List (String → Option β)) (k : String),
      concatAttrs storeAttrs k = storeAttrs.reverse.findSome? (fun f => f k)) := by
  constructor
  · intro fs k
    unfold headerAttrs
    rw [headerAttrs_foldl]
    simp
  · intro fs k
    unfold concatAttrs
    rw [concatAttrs_foldl]
    simp

/-! ## `BaseCatalog.columns` (catalog.py lines 522-574) -/

/-- `BaseCatalog.columns` on the root rank.  When `include` or `exclude` is
given, the code calls `re.match` (lines 560 and 571), but `re` is never
imported in catalog.py, so Python raises `NameError: name 're' is not
defined`; with no filters it returns the union of locally-resident and
source-declared names (the Python `set` enumeration order is unspecified;
the embedding fixes data-keys-then-new-source-names order).  The result
list (never reached with filters) would then be broadcast to all ranks. -/
def columnsRun (dataCols sourceCols : List String)
    (includePatterns excludePatterns : Option (List String)) :
    Except String (List String) :=
  match includePatterns, excludePatterns with
  | none, none =>
      Except.ok (dataCols ++ sourceCols.filter (fun c => !(dataCols.contains c)))
  | _, _ => Except.error "NameError: name 're' is not defined"

/-- C9 fails on the code: any include or exclude pattern makes `columns`
raise `NameError` because the `re` module is never imported, so the
glob-filtered broadcast list the claim describes is never produced. -/
theorem columns_filters_raise_nameerror :
    columnsRun ["a", "ab"] [] (some ["a*"]) none
      = Except.error "NameError: name 're' is not defined"
    ∧ columnsRun ["a", "ab"] [] none (some ["a*"])
      = Except.error "NameError: name 're' is not defined"
    ∧ columnsRun ["a", "ab"] ["b"] none none = Except.ok ["a", "ab", "b"] :=
  ⟨rfl, rfl, rfl⟩

/-! ## `BaseCatalog.__len__` (catalog.py lines 503-510) -/

/-- `BaseCatalog.__len__`: `keys = list(self.data.keys())`; with columns
present it returns the first column's local length.  With no columns the
code tests `if self.has_source is not None:` — but `has_source` is a bool
property (line 616), never `None`, so the branch is always taken and a
detached catalog evaluates the missing attribute `self._source`, raising
`AttributeError`.  `source?` is `some size` when `_source` exists. -/
def lenRun (data : List (String × List α)) (source? : Option Nat) : Except String Nat :=
  match data with
  | [] =>
      match source? with
      | some size => Except.ok size
      | none => Except.error "AttributeError: object has no attribute '_source'"
  | (_, col) :: _ => Except.ok col.length

/-- C10 fails on the code: the local length query of a store created empty
and detached (no columns, no backing source) raises `AttributeError`
instead of returning 0; with a column present the normal path works. -/
theorem len_empty_detached_raises :
    lenRun ([] : List (String × List Nat)) none
      = Except.error "AttributeError: object has no attribute '_source'"
    ∧ lenRun ([("a", [1, 2])] : List (String × List Nat)) none = Except.ok 2 :=
  ⟨rfl, rfl⟩

/-! ## `BaseCatalog.get` (catalog.py lines 614-639) -/

/-- The backing source as `get` sees it: its declared `columns` list and its
per-column `read` operation (`BaseFile.read`, i.e. `readCol` over the
source's files, abstracted here as the function `readf`). -/
structure SourceHandle (α : Type) where
  columns : List String
  readf : String → List α

/-- The per-process state `get` touches: the local mapping `self.data` (an
insertion-ordered Python dict, modelled as an association list), the
optional `_source` back-reference, and `reads`, an instrumentation counter
for the number of `_source.read` calls performed (not a field of the Python
object; it makes "no second source read" an observable fact). -/
structure GetCatalog (α : Type) where
  data : List (String × List α)
  source : Option (SourceHandle α)
  reads : Nat

/-- Python dict lookup on the association list: first (unique) binding. -/
def dictLookup (m : List (String × β)) (k : String) : Option β :=
  (m.find? (fun p => p.1 = k)).map Prod.snd

/-- The state after `get` pulls `column` out of the source and caches it
(line 635: `self.data[column] = self._source.read(column)`); a dict insert
of a fresh key appends in insertion order. -/
def cacheColumn (c : GetCatalog α) (column : String) (src : SourceHandle α) :
    GetCatalog α :=
  { c with data := c.data ++ [(column, src.readf column)], reads := c.reads + 1 }

/-- `BaseCatalog.get` (lines 618-639): local mapping first; else, if a
source exists and declares the column, read-and-cache; else the
caller-supplied default if one was given; else `KeyError` (the spec's
`ColumnNotFound`).  The two default/raise tails mirror Python's
fall-through past the source check. -/
def get (c : GetCatalog α) (column : String) (default? : Option (List α)) :
    Except String (List α × GetCatalog α) :=
  match dictLookup c.data column with
  | some v => Except.ok (v, c)
  | none =>
    match c.source with
    | some src =>
      if column ∈ src.columns then
        Except.ok (src.readf column, cacheColumn c column src)
      else
        match default? with
        | some d => Except.ok (d, c)
        | none => Except.error ("Column " ++ column ++ " does not exist")
    | none =>
      match default? with
      | some d => Except.ok (d, c)
      | none => Except.error ("Column " ++ column ++ " does not exist")

theorem dictLookup_append_self (m : List (String × β)) (k : String) (v : β)
    (h : dictLookup m k = none) : dictLookup (m ++ [(k, v)]) k = some v := by
  unfold dictLookup at h ⊢
  rw [List.find?_append]
  have hf : m.find? (fun p => p.1 = k) = none := by
    cases hx : m.find? (fun p => p.1 = k) with
    | none => rfl
    | some p =>
      rw [hx] at h
      simp at h
  rw [hf]
  simp

/-- C7: `get` returns the locally-stored array when present (state
unchanged); otherwise, with a backing source declaring the column, it reads
it from the source, caches it and returns it, and a second `get` of the same
column returns the cached copy with no further source read (`reads` stays
put); otherwise it returns the caller-supplied default when given; and it
fails with the column-not-found error exactly when the column is in neither
the mapping nor the source's declared columns and no default was given. -/
theorem get_spec (c : GetCatalog α) (column : String) (default? : Option (List α)) :
    (∀ v, dictLookup c.data column = some v →
      get c column default? = Except.ok (v, c))
    ∧ (∀ src, dictLookup c.data column = none → c.source = some src →
        column ∈ src.columns →
        get c column default? = Except.ok (src.readf column, cacheColumn c column src)
        ∧ ∀ default?', get (cacheColumn c column src) column default?'
            = Except.ok (src.readf column, cacheColumn c column src))
    ∧ (∀ d, dictLookup c.data column = none →
        (∀ src, c.source = some src → column ∉ src.columns) →
        default? = some d → get c column default? = Except.ok (d, c))
    ∧ (get c column default? = Except.error ("Column " ++ column ++ " does not exist")
        ↔ dictLookup c.data column = none
          ∧ (∀ src, c.source = some src → column ∉ src.columns)
          ∧ default? = none) := by
  refine ⟨?_, ?_, ?_, ?_⟩
  · intro v hv
    unfold get
    rw [hv]
  · intro src hnone hsrc hmem
    constructor
    · simp [get, hnone, hsrc, hmem]
    · intro default?'
      unfold get
      rw [show dictLookup (cacheColumn c column src).data column = some (src.readf column)
        from dictLookup_append_self c.data column (src.readf column) hnone]
  · intro d hnone hnosrc hd
    unfold get
    rw [hnone, hd]
    cases hs : c.source with
    | none => rfl
    | some src => simp [hnosrc src hs]
  · constructor
    · intro he
      cases hl : dictLookup c.data column with
      | some v =>
        unfold get at he
        rw [hl] at he
        simp at he
      | none =>
        unfold get at he
        rw [hl] at he
        cases hs : c.source with
        | some src =>
          rw [hs] at he
          by_cases hmem : column ∈ src.columns
          · simp [hmem] at he
          · cases hd : default? with
            | some d =>
              rw [hd] at he
              simp [hmem] at he
            | none =>
              refine ⟨rfl, ?_, rfl⟩
              intro src' hs'
              cases hs'
              exact hmem
        | none =>
          rw [hs] at he
          cases hd : default? with
          | some d =>
            rw [hd] at he
            simp at he
          | none =>
            refine ⟨rfl, ?_, rfl⟩
            intro src' hs'
            cases hs'
    · rintro ⟨hl, hnosrc, hd⟩
      unfold get
      rw [hl, hd]
      cases hs : c.source with
      | none => rfl
      | some src => simp [hnosrc src hs]

/-- Source of the C7 witness: declares only column `"b"`. -/
def exampleSource : SourceHandle Nat :=
  ⟨["b"], fun n => if n = "b" then [5] else []⟩

/-- Catalog of the C7 witness: column `"a"` materialized, backed by
`exampleSource`, no source read performed yet. -/
def exampleCatalog : GetCatalog Nat :=
  ⟨[("a", [1, 2])], some exampleSource, 0⟩

/-- Witness for C7: stored column returned as-is; lazily-read column cached
with one source read; second access served from the cache with `reads`
still 1; default returned for a missing column; error exactly when no
default. -/
theorem get_spec_witness :
    get exampleCatalog "a" none = Except.ok ([1, 2], exampleCatalog)
    ∧ get exampleCatalog "b" none
        = Except.ok ([5], cacheColumn exampleCatalog "b" exampleSource)
    ∧ get (cacheColumn exampleCatalog "b" exampleSource) "b" none
        = Except.ok ([5], cacheColumn exampleCatalog "b" exampleSource)
    ∧ (cacheColumn exampleCatalog "b" exampleSource).reads = 1
    ∧ get exampleCatalog "c" (some [9]) = Except.ok ([9], exampleCatalog)
    ∧ get exampleCatalog "c" none = Except.error "Column c does not exist" := by
  have hb := (get_spec exampleCatalog "b" none).2.1 exampleSource (by decide) rfl
    (by decide)
  refine ⟨(get_spec exampleCatalog "a" none).1 [1, 2] (by decide), hb.1, hb.2 none, rfl,
    (get_spec exampleCatalog "c" (some [9])).2.2.1 [9] (by decide) ?_ rfl, ?_⟩
  · intro src hs
    cases hs
    decide
  · apply (get_spec exampleCatalog "c" none).2.2.2.mpr
    refine ⟨by decide, ?_, rfl⟩
    intro src hs
    cases hs
    decide

end Mockfactory
